import Mathlib

/-!
Shallow embedding of the audio codec and live-session logic of the
Gemini-Voice-AI repository (services/audioUtils and components/LiveSession),
with theorems settling the specification claims about them.

Conventions: JavaScript numbers are modelled as rationals (every value the
code manipulates here is a dyadic rational, on which double and float32
arithmetic is exact), byte buffers as `List Nat` with entries below 256, and
strings as their lists of characters / character codes.
-/

/-- JavaScript `Math.min`, on the rationals the code feeds it. -/
def ratMin (a b : ℚ) : ℚ :=
  if a ≤ b then a else b

/-- JavaScript `Math.max`, on the rationals the code feeds it. -/
def ratMax (a b : ℚ) : ℚ :=
  if a ≤ b then b else a

/-- Truncation toward zero of a rational number, as JavaScript
ToIntegerOrInfinity performs on a finite number. -/
def ratTrunc (q : ℚ) : ℤ :=
  q.num.tdiv (q.den : ℤ)

/-- JavaScript ToInt16, applied when a number is stored into an `Int16Array`
element (`int16Array[i] = ...` in `float32ToB64PCM`): truncate toward zero,
then wrap modulo 2^16 into the signed range [-32768, 32767]. -/
def jsToInt16 (q : ℚ) : ℤ :=
  (ratTrunc q + 32768) % 65536 - 32768

/-- The two bytes an `Int16Array` element occupies in its underlying buffer on a
little-endian platform: twos-complement, low byte first. -/
def int16LEBytes (i : ℤ) : List Nat :=
  [(i % 65536).toNat % 256, (i % 65536).toNat / 256]

/-- The clamp in `float32ToB64PCM`: `Math.max(-1, Math.min(1, float32Array[i]))`. -/
def clampSample (x : ℚ) : ℚ :=
  ratMax (-1) (ratMin 1 x)

/-- The Int16 value `float32ToB64PCM` stores for one input sample:
`int16Array[i] = s < 0 ? s * 0x8000 : s * 0x7FFF` after clamping. -/
def encodeSample (x : ℚ) : ℤ :=
  if clampSample x < 0 then jsToInt16 (clampSample x * 32768)
  else jsToInt16 (clampSample x * 32767)

/-- The bytes of the `Int16Array` built by `float32ToB64PCM`, i.e. the PCM chunk
before base64 framing (`new Uint8Array(int16Array.buffer)`). -/
def float32ToPCMBytes : List ℚ → List Nat
  | [] => []
  | x :: rest => int16LEBytes (encodeSample x) ++ float32ToPCMBytes rest

/-- The base64 alphabet as character codes: A-Z, a-z, 0-9, plus, slash. -/
def base64Alphabet : List Nat :=
  ((List.range 26).map (fun i => i + 65)) ++ ((List.range 26).map (fun i => i + 97))
    ++ ((List.range 10).map (fun i => i + 48)) ++ [43, 47]

/-- Character code encoding one six-bit value. -/
def encB64 (v : Nat) : Nat :=
  base64Alphabet.getD v 0

/-- Position of a character code in a list (list length when absent). -/
def b64Index (c : Nat) : List Nat → Nat
  | [] => 0
  | a :: rest => if a = c then 0 else b64Index c rest + 1

/-- Six-bit value of one base64 character code. -/
def decB64 (c : Nat) : Nat :=
  b64Index c base64Alphabet

/-- Modelled from the spec: the browser `btoa` builtin used by
`uint8ArrayToBase64`, which is not part of the repository source. Standard
base64: each group of three bytes becomes four alphabet characters; a final
group of one or two bytes is padded with one or two `=` (code 61). Strings are
identified with their lists of character codes. -/
def btoa : List Nat → List Nat
  | [] => []
  | [a] => [encB64 (a / 4), encB64 (a % 4 * 16), 61, 61]
  | [a, b] => [encB64 (a / 4), encB64 (a % 4 * 16 + b / 16), encB64 (b % 16 * 4), 61]
  | a :: b :: c :: rest =>
      encB64 (a / 4) :: encB64 (a % 4 * 16 + b / 16) :: encB64 (b % 16 * 4 + c / 64)
        :: encB64 (c % 64) :: btoa rest

/-- Modelled from the spec: the browser `atob` builtin used by
`base64ToUint8Array`, which is not part of the repository source. Inverse of
`btoa`: four characters yield three bytes, fewer when padding `=` (code 61)
ends the group. -/
def atob : List Nat → List Nat
  | c1 :: c2 :: c3 :: c4 :: rest =>
      if c3 = 61 then [decB64 c1 * 4 + decB64 c2 / 16]
      else if c4 = 61 then
        [decB64 c1 * 4 + decB64 c2 / 16, decB64 c2 % 16 * 16 + decB64 c3 / 4]
      else
        (decB64 c1 * 4 + decB64 c2 / 16) :: (decB64 c2 % 16 * 16 + decB64 c3 / 4)
          :: (decB64 c3 % 4 * 64 + decB64 c4) :: atob rest
  | _ => []

/-- `uint8ArrayToBase64`: builds the binary string whose character codes are the
bytes, then applies `btoa`; under the identification of strings with their
code lists this is `btoa` itself. -/
def uint8ArrayToBase64 (bytes : List Nat) : List Nat :=
  btoa bytes

/-- `base64ToUint8Array`: applies `atob` and reads the character codes back into
a `Uint8Array`; under the identification of strings with their code lists this
is `atob` itself. -/
def base64ToUint8Array (s : List Nat) : List Nat :=
  atob s

/-- `float32ToB64PCM`: clamp/scale/truncate each sample into an `Int16Array`,
then base64-encode the underlying bytes. -/
def float32ToB64PCM (samples : List ℚ) : List Nat :=
  uint8ArrayToBase64 (float32ToPCMBytes samples)

/-- Signed value of the 16-bit little-endian pair an `Int16Array` reads from two
bytes. -/
def toSigned16 (u : Nat) : ℤ :=
  if u < 32768 then (u : ℤ) else (u : ℤ) - 65536

/-- `pcmToAudioBuffer` for the mono case used by the live session
(`numChannels = 1`): an `Int16Array` view of `byteLength / 2` elements is taken
over the buffer (the floor division drops a trailing odd byte), and each
element is divided by 32768.0 into the channel data. -/
def pcmToAudioBuffer : List Nat → List ℚ
  | lo :: hi :: rest => (toSigned16 (lo + 256 * hi) : ℚ) / 32768 :: pcmToAudioBuffer rest
  | _ => []

/-- On nonnegative rationals, JavaScript truncation is the floor. -/
theorem ratTrunc_eq_floor (q : ℚ) (h : 0 ≤ q) : ratTrunc q = ⌊q⌋ := by
  rw [ratTrunc, Int.tdiv_eq_ediv (Rat.num_nonneg.2 h) (Int.natCast_nonneg _), Rat.floor_def]

/-- On nonpositive rationals, JavaScript truncation is the ceiling. -/
theorem ratTrunc_eq_ceil (q : ℚ) (h : q ≤ 0) : ratTrunc q = ⌈q⌉ := by
  have h1 : (0 : ℤ) ≤ -q.num := by
    have := Rat.num_nonneg.2 (neg_nonneg.2 h)
    simpa using this
  have h2 : (⌈q⌉ : ℤ) = -⌊-q⌋ := by
    have := Int.ceil_neg (α := ℚ) (a := -q)
    simpa using this.symm
  rw [ratTrunc, h2, Rat.floor_def]
  rw [Rat.neg_num, Rat.neg_den]
  rw [← Int.tdiv_eq_ediv h1 (Int.natCast_nonneg _), Int.neg_tdiv, neg_neg]

/-- `ratMax` agrees with the order-theoretic maximum. -/
theorem ratMax_eq (a b : ℚ) : ratMax a b = max a b := by
  rw [ratMax, max_def]

/-- `ratMin` agrees with the order-theoretic minimum. -/
theorem ratMin_eq (a b : ℚ) : ratMin a b = min a b := by
  rw [ratMin, min_def]

/-- State of the playback scheduler inside the live session: the timeline
cursor `nextStartTimeRef` and the active set `activeSourcesRef`, each active
unit recorded as its (start time, duration) pair. -/
structure SchedState where
  cursor : ℚ
  active : List (ℚ × ℚ)
deriving DecidableEq

/-- The playback-scheduling block of `onmessage` for one decoded buffer of
duration `d` at clock `now`: `scheduleTime = Math.max(nextStartTimeRef.current,
ctx.currentTime)`, then `source.start(scheduleTime)`,
`nextStartTimeRef.current = scheduleTime + audioBuffer.duration`, and the
source is added to the active set. Returns the assigned start time and the new
state. -/
def schedule (st : SchedState) (now d : ℚ) : ℚ × SchedState :=
  let start := ratMax st.cursor now
  (start, { cursor := start + d, active := (start, d) :: st.active })

/-- The interruption block of `onmessage`: stop every active source, clear the
active set, reset the cursor to the current clock. Returns the list of units a
stop command was issued to, and the new state. -/
def interrupt (st : SchedState) (now : ℚ) : List (ℚ × ℚ) × SchedState :=
  (st.active, { cursor := now, active := [] })

/-- The audio-output path of `onmessage` for one inbound PCM byte chunk:
decode via `pcmToAudioBuffer` (24000 Hz mono), then schedule the resulting
buffer, whose duration is `frameCount / sampleRate`. -/
def handleAudioChunk (st : SchedState) (now : ℚ) (pcm : List Nat) : SchedState :=
  (schedule st now (((pcmToAudioBuffer pcm).length : ℚ) / 24000)).2

/-- One resource-release action performed by `cleanup`. -/
inductive ReleaseAction
  | stopSource (id : Nat)
  | stopTrack (id : Nat)
  | disconnectProcessor (id : Nat)
  | disconnectInput (id : Nat)
deriving DecidableEq

/-- The mutable refs and state of the `LiveSession` component that `cleanup`
touches: active playback sources, the tracks of the media stream, the script
processor, the input source node, the session promise, plus the recording flag
and status text. -/
structure LiveState where
  activeSources : List Nat
  mediaStreamTracks : Option (List Nat)
  processor : Option Nat
  inputSource : Option Nat
  session : Option Nat
  isRecording : Bool
  status : String
deriving DecidableEq

/-- The status string `cleanup` resets to. -/
def readyStatus : String :=
  "Sẵn sàng kết nối"

/-- `cleanup`: stop all active sources and clear the set; stop the media
tracks of the media stream and null the ref; disconnect and null the processor and the
input source; null the session promise; reset the recording flag and status.
Returns the new state together with the release actions performed. -/
def cleanup (s : LiveState) : LiveState × List ReleaseAction :=
  ({ activeSources := []
     mediaStreamTracks := none
     processor := none
     inputSource := none
     session := none
     isRecording := false
     status := readyStatus },
   s.activeSources.map ReleaseAction.stopSource
     ++ (match s.mediaStreamTracks with
         | some ts => ts.map ReleaseAction.stopTrack
         | none => [])
     ++ (match s.processor with
         | some p => [ReleaseAction.disconnectProcessor p]
         | none => [])
     ++ (match s.inputSource with
         | some i => [ReleaseAction.disconnectInput i]
         | none => []))

/-- The initial Idle state of the component: no resources held, not recording,
ready status. -/
def idleState : LiveState :=
  { activeSources := []
    mediaStreamTracks := none
    processor := none
    inputSource := none
    session := none
    isRecording := false
    status := readyStatus }

/-- Whether a character list starts with the pattern, as one step of
`String.prototype.includes`. -/
def startsWith : List Char → List Char → Bool
  | [], _ => true
  | _ :: _, [] => false
  | p :: ps, c :: cs => if p = c then startsWith ps cs else false

/-- `errorMessage.includes(pat)`: some position of the text starts with the
pattern. -/
def includes (pat : List Char) : List Char → Bool
  | [] => startsWith pat []
  | c :: cs => startsWith pat (c :: cs) || includes pat cs

/-- The rate-limit classification in `onerror` (and in `handleGenerateAndPlay`
of the text-to-speech component): `errorMessage.includes(p)` over the three patterns 429, quota, and
Resource has been exhausted selects the quota-exceeded notification; every other error text
gets the generic one. -/
def classifyRateLimited (msg : List Char) : Bool :=
  includes "429".data msg || includes "quota".data msg
    || includes "Resource has been exhausted".data msg

/-- Little-endian bytes written by `DataView.setUint16` (value wraps mod 2^16). -/
def u16le (n : Nat) : List Nat :=
  [n % 256, n / 256 % 256]

/-- Little-endian bytes written by `DataView.setUint32` (value wraps mod 2^32). -/
def u32le (n : Nat) : List Nat :=
  [n % 256, n / 256 % 256, n / 65536 % 256, n / 16777216 % 256]

/-- `pcmToWav`: the bytes of the produced Blob, written in the same order as the source:
RIFF tag, RIFF chunk length 36 + dataLength, WAVE tag, fmt tag, format chunk
length 16, PCM format tag 1, channel count, sample rate, byte rate, block
align, bits per sample 16, data tag, data chunk length, then the PCM data. -/
def pcmToWav (pcmData : List Nat) (sampleRate : Nat) (numChannels : Nat) : List Nat :=
  [82, 73, 70, 70]
    ++ u32le (36 + pcmData.length)
    ++ [87, 65, 86, 69]
    ++ [102, 109, 116, 32]
    ++ u32le 16
    ++ u16le 1
    ++ u16le numChannels
    ++ u32le sampleRate
    ++ u32le (sampleRate * numChannels * 2)
    ++ u16le (numChannels * 2)
    ++ u16le 16
    ++ [100, 97, 116, 97]
    ++ u32le pcmData.length
    ++ pcmData

/-- The 16-bit little-endian field of a byte list at a given offset. -/
def readU16LE (l : List Nat) (off : Nat) : Nat :=
  l.getD off 0 + 256 * l.getD (off + 1) 0

/-- The 32-bit little-endian field of a byte list at a given offset. -/
def readU32LE (l : List Nat) (off : Nat) : Nat :=
  l.getD off 0 + 256 * l.getD (off + 1) 0 + 65536 * l.getD (off + 2) 0
    + 16777216 * l.getD (off + 3) 0

/-- Byte length of the encoded PCM chunk: two bytes per input sample. -/
theorem float32ToPCMBytes_length_eq (samples : List ℚ) :
    (float32ToPCMBytes samples).length = 2 * samples.length := by
  induction samples with
  | nil => rfl
  | cons x xs ih =>
    simp only [float32ToPCMBytes, int16LEBytes, List.length_append, List.length_cons,
      List.length_nil, ih]
    omega

/-- C9: for every input frame of n float samples, the encoded PCM chunk has
byte length exactly 2 * n — in particular an even length — including n = 0. -/
theorem encode_pcm_chunk_length (samples : List ℚ) :
    (float32ToPCMBytes samples).length = 2 * samples.length ∧
      (float32ToPCMBytes samples).length % 2 = 0 := by
  refine ⟨float32ToPCMBytes_length_eq samples, ?_⟩
  rw [float32ToPCMBytes_length_eq samples]
  omega

/-- C2: handling an interruption signal stops every active unit (the stop
commands go exactly to the active set), leaves the active set empty, and sets
the timeline cursor to the current clock. -/
theorem interrupt_clears_active_resets_cursor (st : SchedState) (now : ℚ) :
    (interrupt st now).2.active = [] ∧ (interrupt st now).2.cursor = now ∧
      (interrupt st now).1 = st.active :=
  ⟨rfl, rfl, rfl⟩

/-- C8: session teardown is idempotent — from the Idle state `cleanup` is a
no-op performing no release action, and a second `cleanup` after any first one
leaves the state unchanged and performs no further release action, so each
resource of the first state is released exactly once. -/
theorem cleanup_idempotent :
    cleanup idleState = (idleState, []) ∧
      ∀ s : LiveState, cleanup (cleanup s).1 = ((cleanup s).1, []) :=
  ⟨rfl, fun _ => rfl⟩

/-- C1: the scheduler assigns start time max(cursor, now) and then advances the
cursor to start + duration; hence for three chunks of durations d1, d2, d3 each
arriving while now does not exceed the cursor, start2 = start1 + d1 and
start3 = start2 + d2, and the start times are monotonically non-decreasing. -/
theorem schedule_gapless (st0 : SchedState) (now1 now2 now3 d1 d2 d3 : ℚ)
    (hd1 : 0 ≤ d1) (hd2 : 0 ≤ d2)
    (h2 : now2 ≤ ((schedule st0 now1 d1).2).cursor)
    (h3 : now3 ≤ ((schedule (schedule st0 now1 d1).2 now2 d2).2).cursor) :
    (schedule st0 now1 d1).1 = max st0.cursor now1 ∧
    ((schedule st0 now1 d1).2).cursor = (schedule st0 now1 d1).1 + d1 ∧
    ((schedule (schedule st0 now1 d1).2 now2 d2).2).cursor
        = (schedule (schedule st0 now1 d1).2 now2 d2).1 + d2 ∧
    (schedule (schedule st0 now1 d1).2 now2 d2).1 = (schedule st0 now1 d1).1 + d1 ∧
    (schedule (schedule (schedule st0 now1 d1).2 now2 d2).2 now3 d3).1
        = (schedule (schedule st0 now1 d1).2 now2 d2).1 + d2 ∧
    (schedule st0 now1 d1).1 ≤ (schedule (schedule st0 now1 d1).2 now2 d2).1 ∧
    (schedule (schedule st0 now1 d1).2 now2 d2).1
        ≤ (schedule (schedule (schedule st0 now1 d1).2 now2 d2).2 now3 d3).1 := by
  simp only [schedule, ratMax_eq] at h2 h3 ⊢
  refine ⟨trivial, trivial, trivial, max_eq_left h2, max_eq_left h3, ?_, ?_⟩
  · calc max st0.cursor now1 ≤ max st0.cursor now1 + d1 := le_add_of_nonneg_right hd1
      _ ≤ max (max st0.cursor now1 + d1) now2 := le_max_left _ _
  · calc max (max st0.cursor now1 + d1) now2
        ≤ max (max st0.cursor now1 + d1) now2 + d2 := le_add_of_nonneg_right hd2
      _ ≤ max (max (max st0.cursor now1 + d1) now2 + d2) now3 := le_max_left _ _

/-- Witness for C1 at the concrete state with cursor 0, empty active set, all
clocks and durations 0. -/
theorem schedule_gapless_witness :
    ((0 : ℚ) ≤ 0 ∧ 0 ≤ ((schedule ⟨0, []⟩ 0 0).2).cursor ∧
      (0 : ℚ) ≤ ((schedule (schedule ⟨0, []⟩ 0 0).2 0 0).2).cursor) ∧
    ((schedule ⟨0, []⟩ 0 0).1 = max (SchedState.mk 0 []).cursor 0 ∧
    ((schedule ⟨0, []⟩ 0 0).2).cursor = (schedule ⟨0, []⟩ 0 0).1 + 0 ∧
    ((schedule (schedule ⟨0, []⟩ 0 0).2 0 0).2).cursor
        = (schedule (schedule ⟨0, []⟩ 0 0).2 0 0).1 + 0 ∧
    (schedule (schedule ⟨0, []⟩ 0 0).2 0 0).1 = (schedule ⟨0, []⟩ 0 0).1 + 0 ∧
    (schedule (schedule (schedule ⟨0, []⟩ 0 0).2 0 0).2 0 0).1
        = (schedule (schedule ⟨0, []⟩ 0 0).2 0 0).1 + 0 ∧
    (schedule ⟨0, []⟩ 0 0).1 ≤ (schedule (schedule ⟨0, []⟩ 0 0).2 0 0).1 ∧
    (schedule (schedule ⟨0, []⟩ 0 0).2 0 0).1
        ≤ (schedule (schedule (schedule ⟨0, []⟩ 0 0).2 0 0).2 0 0).1) :=
  ⟨⟨le_rfl, by simp [schedule, ratMax], by simp [schedule, ratMax]⟩,
    schedule_gapless ⟨0, []⟩ 0 0 0 0 0 0 le_rfl le_rfl
      (by simp [schedule, ratMax]) (by simp [schedule, ratMax])⟩

/-- C5: for every PCM chunk, including the empty one, `pcmToWav` yields exactly
44 + len(chunk) bytes whose header declares PCM format tag 1, the given channel
count, the given sample rate, byte rate = sampleRate * channels * 2, block
align = channels * 2, bits per sample = 16, RIFF chunk length 36 + len and data
chunk length len (for field values that fit their 16- or 32-bit slots). -/
theorem pcmToWav_header_fields (pcm : List Nat) (rate ch : Nat)
    (hch : ch < 32768) (hrate : rate < 4294967296)
    (hbyterate : rate * ch * 2 < 4294967296) (hlen : 36 + pcm.length < 4294967296) :
    (pcmToWav pcm rate ch).length = 44 + pcm.length ∧
    readU16LE (pcmToWav pcm rate ch) 20 = 1 ∧
    readU16LE (pcmToWav pcm rate ch) 22 = ch ∧
    readU32LE (pcmToWav pcm rate ch) 24 = rate ∧
    readU32LE (pcmToWav pcm rate ch) 28 = rate * ch * 2 ∧
    readU16LE (pcmToWav pcm rate ch) 32 = ch * 2 ∧
    readU16LE (pcmToWav pcm rate ch) 34 = 16 ∧
    readU32LE (pcmToWav pcm rate ch) 4 = 36 + pcm.length ∧
    readU32LE (pcmToWav pcm rate ch) 40 = pcm.length := by
  refine ⟨?_, ?_, ?_, ?_, ?_, ?_, ?_, ?_, ?_⟩ <;>
    simp only [pcmToWav, u16le, u32le, readU16LE, readU32LE, List.cons_append,
      List.nil_append, List.length_append, List.length_cons, List.length_nil,
      List.getD_cons_zero, List.getD_cons_succ] <;>
    omega

/-- Witness for C5 at a two-byte chunk, 24000 Hz, one channel. -/
theorem pcmToWav_header_fields_witness :
    ((1 : Nat) < 32768 ∧ (24000 : Nat) < 4294967296 ∧ 24000 * 1 * 2 < 4294967296 ∧
      36 + (List.length [1, 2]) < 4294967296) ∧
    ((pcmToWav [1, 2] 24000 1).length = 44 + (List.length [1, 2]) ∧
    readU16LE (pcmToWav [1, 2] 24000 1) 20 = 1 ∧
    readU16LE (pcmToWav [1, 2] 24000 1) 22 = 1 ∧
    readU32LE (pcmToWav [1, 2] 24000 1) 24 = 24000 ∧
    readU32LE (pcmToWav [1, 2] 24000 1) 28 = 24000 * 1 * 2 ∧
    readU16LE (pcmToWav [1, 2] 24000 1) 32 = 1 * 2 ∧
    readU16LE (pcmToWav [1, 2] 24000 1) 34 = 16 ∧
    readU32LE (pcmToWav [1, 2] 24000 1) 4 = 36 + (List.length [1, 2]) ∧
    readU32LE (pcmToWav [1, 2] 24000 1) 40 = List.length [1, 2]) :=
  ⟨⟨by decide, by decide, by decide, by decide⟩,
    pcmToWav_header_fields [1, 2] 24000 1 (by decide) (by decide) (by decide) (by decide)⟩

/-- A character list starts with the pattern exactly when the pattern is a
prefix of it. -/
theorem startsWith_iff (p l : List Char) : startsWith p l = true ↔ p <+: l := by
  induction p generalizing l with
  | nil => simp [startsWith, List.nil_prefix]
  | cons x ps ih =>
    cases l with
    | nil => simp [startsWith]
    | cons c cs =>
      rw [startsWith]
      split
      · rename_i hx
        subst hx
        simp [List.cons_prefix_cons, ih]
      · rename_i hx
        simp [List.cons_prefix_cons, hx]

/-- `includes` decides substring containment. -/
theorem includes_iff (p l : List Char) :
    includes p l = true ↔ p <:+: l := by
  induction l with
  | nil =>
    rw [includes, startsWith_iff]
    simp
  | cons c cs ih =>
    rw [includes, Bool.or_eq_true, startsWith_iff, ih, List.infix_cons_iff]

/-- C6 (amended): the transport-error classifier reports the rate-limit class
exactly when the error text contains "429", "quota", or "Resource has been
exhausted" as a substring. -/
theorem classifyRateLimited_iff (msg : List Char) :
    classifyRateLimited msg = true ↔
      ("429".data <:+: msg ∨ "quota".data <:+: msg
        ∨ "Resource has been exhausted".data <:+: msg) := by
  rw [classifyRateLimited, Bool.or_eq_true, Bool.or_eq_true,
    includes_iff, includes_iff, includes_iff, or_assoc]

/-- Counterexample to C6 as stated: the text "Resource has been exhausted"
classifies as rate-limited although it contains neither "429" nor "quota". -/
theorem classifyRateLimited_counterexample :
    classifyRateLimited "Resource has been exhausted".data = true ∧
      includes "429".data "Resource has been exhausted".data = false ∧
      includes "quota".data "Resource has been exhausted".data = false := by
  refine ⟨?_, ?_, ?_⟩ <;> decide

/-- The decoded frame count is the floor of half the byte length: a trailing
odd byte is dropped, not rejected. -/
theorem pcmToAudioBuffer_length_eq : ∀ data : List Nat,
    (pcmToAudioBuffer data).length = data.length / 2
  | [] => rfl
  | [_] => by
    show (pcmToAudioBuffer []).length = 1 / 2
    rfl
  | _ :: _ :: rest => by
    simp only [pcmToAudioBuffer, List.length_cons, pcmToAudioBuffer_length_eq rest]
    omega

/-- C7 (amended): a chunk whose byte buffer has odd length is not rejected —
the decode path raises no error, silently drops the trailing byte (decoding
⌊len/2⌋ 16-bit words), and the chunk is scheduled like any other: the cursor
advances by the decoded duration and the unit joins the active set, the
session continuing to stream. -/
theorem odd_chunk_truncated_not_rejected (st : SchedState) (now : ℚ) (data : List Nat) :
    (pcmToAudioBuffer data).length = data.length / 2 ∧
    (handleAudioChunk st now data).cursor
        = ratMax st.cursor now + ((data.length / 2 : ℕ) : ℚ) / 24000 ∧
    (handleAudioChunk st now data).active
        = (ratMax st.cursor now, ((data.length / 2 : ℕ) : ℚ) / 24000) :: st.active := by
  refine ⟨pcmToAudioBuffer_length_eq data, ?_, ?_⟩ <;>
    simp [handleAudioChunk, schedule, pcmToAudioBuffer_length_eq data]

/-- Counterexample to C7 as stated: the odd-length chunk [1, 2, 3] is not
rejected and does not leave the scheduler state unchanged — it decodes to one
sample and advances the cursor of the initial state from 0 to 1/24000. -/
theorem odd_chunk_rejected_counterexample :
    pcmToAudioBuffer [1, 2, 3] = [513 / 32768] ∧
      (handleAudioChunk ⟨0, []⟩ 0 [1, 2, 3]).cursor = 1 / 24000 ∧
      (1 : ℚ) / 24000 ≠ 0 := by
  refine ⟨?_, ?_, by norm_num⟩
  · norm_num [pcmToAudioBuffer, toSigned16]
  · norm_num [handleAudioChunk, schedule, ratMax, pcmToAudioBuffer, toSigned16]

/-- The description the spec gives of `encode` on one sample, with the rounding mode
as the code has it (truncation toward zero): clamp to [-1, 1], scale negative
values by 32768 and non-negative values by 32767, take the integer part. This
companion definition carries no 16-bit wrap-around; the theorems below show it
coincides with the stored `Int16Array` value. -/
def encodeSampleSpec (x : ℚ) : ℤ :=
  if clampSample x < 0 then ratTrunc (clampSample x * 32768)
  else ratTrunc (clampSample x * 32767)

/-- The clamp lands in [-1, 1]. -/
theorem clampSample_mem (x : ℚ) : -1 ≤ clampSample x ∧ clampSample x ≤ 1 := by
  rw [clampSample, ratMax_eq, ratMin_eq]
  exact ⟨le_max_left _ _, max_le (by norm_num) (min_le_left _ _)⟩

/-- A sample already in [-1, 1] is left unchanged by the clamp. -/
theorem clampSample_eq_self (x : ℚ) (h1 : -1 ≤ x) (h2 : x ≤ 1) : clampSample x = x := by
  rw [clampSample, ratMax_eq, ratMin_eq, min_eq_right h2, max_eq_right h1]

/-- The clamped, scaled, truncated value fits the signed 16-bit range. -/
theorem encodeSampleSpec_bounds (x : ℚ) :
    -32768 ≤ encodeSampleSpec x ∧ encodeSampleSpec x ≤ 32767 := by
  obtain ⟨h1, h2⟩ := clampSample_mem x
  rw [encodeSampleSpec]
  split
  · rename_i hneg
    rw [ratTrunc_eq_ceil _ (by nlinarith)]
    constructor
    · have hle : (-32768 : ℚ) ≤ (⌈clampSample x * 32768⌉ : ℚ) :=
        le_trans (by nlinarith) (Int.le_ceil _)
      exact_mod_cast hle
    · refine Int.ceil_le.2 ?_
      push_cast
      nlinarith
  · rename_i hpos
    push_neg at hpos
    rw [ratTrunc_eq_floor _ (by nlinarith)]
    constructor
    · refine Int.le_floor.2 ?_
      push_cast
      nlinarith
    · have hle : (⌊clampSample x * 32767⌋ : ℚ) ≤ (32767 : ℚ) :=
        le_trans (Int.floor_le _) (by nlinarith)
      exact_mod_cast hle

/-- The 16-bit wrap is the identity on values already in range. -/
theorem jsToInt16_eq (q : ℚ) (h1 : -32768 ≤ ratTrunc q) (h2 : ratTrunc q ≤ 32767) :
    jsToInt16 q = ratTrunc q := by
  rw [jsToInt16]
  omega

/-- What `float32ToB64PCM` stores agrees with the clamp/scale/truncate
description of the spec: the wrap in `Int16Array` assignment never fires. -/
theorem encodeSample_eq_spec (x : ℚ) : encodeSample x = encodeSampleSpec x := by
  have hb := encodeSampleSpec_bounds x
  rw [encodeSampleSpec] at hb ⊢
  rw [encodeSample]
  split
  · rename_i h
    rw [if_pos h] at hb
    exact jsToInt16_eq _ hb.1 hb.2
  · rename_i h
    rw [if_neg h] at hb
    exact jsToInt16_eq _ hb.1 hb.2

/-- C4 (amended): `encode` clamps each sample to [-1, 1] (so encoding 2.0 and
1.0, or -5.0 and -1.0, agree), scales negatives by 32768 and non-negatives by
32767, truncates the scaled value toward zero — not rounds to nearest — and
packs the 16-bit result little-endian. -/
theorem encode_clamps_scales_truncates_packs :
    (∀ x : ℚ, float32ToPCMBytes [x] = int16LEBytes (encodeSampleSpec x) ∧
        -32768 ≤ encodeSampleSpec x ∧ encodeSampleSpec x ≤ 32767) ∧
    float32ToB64PCM [2] = float32ToB64PCM [1] ∧
    float32ToB64PCM [-5] = float32ToB64PCM [-1] := by
  refine ⟨fun x => ⟨?_, (encodeSampleSpec_bounds x).1, (encodeSampleSpec_bounds x).2⟩, ?_, ?_⟩
  · simp [float32ToPCMBytes, encodeSample_eq_spec x]
  · have h : clampSample 2 = clampSample 1 := by
      norm_num [clampSample, ratMin_eq, ratMax_eq]
    simp [float32ToB64PCM, uint8ArrayToBase64, float32ToPCMBytes, encodeSample, h]
  · have h : clampSample (-5) = clampSample (-1) := by
      norm_num [clampSample, ratMin_eq, ratMax_eq]
    simp [float32ToB64PCM, uint8ArrayToBase64, float32ToPCMBytes, encodeSample, h]

/-- Counterexample to C4 as stated: at sample 0.5 the code stores
trunc(0.5 * 32767) = 16383, while rounding the scaled value to the nearest
integer would give 16384. -/
theorem encode_rounds_counterexample :
    encodeSample (1 / 2) = 16383 ∧ round (clampSample (1 / 2) * 32767) = 16384 ∧
      encodeSample (1 / 2) ≠ round (clampSample (1 / 2) * 32767) := by
  have hc : clampSample (1 / 2) = 1 / 2 := clampSample_eq_self _ (by norm_num) (by norm_num)
  have hf : ratTrunc ((1 / 2 : ℚ) * 32767) = 16383 := by
    rw [ratTrunc_eq_floor _ (by norm_num), Int.floor_eq_iff]
    norm_num
  have he : encodeSample (1 / 2) = 16383 := by
    rw [encodeSample, hc, if_neg (by norm_num), jsToInt16, hf]
    decide
  have hr : round ((1 / 2 : ℚ) * 32767) = 16384 := by
    rw [round_eq, Int.floor_eq_iff]
    norm_num
  rw [hc]
  exact ⟨he, hr, by rw [he, hr]; decide⟩

/-- Reading back the two little-endian bytes of an in-range Int16 value
recovers the value. -/
theorem int16LEBytes_decode (i : ℤ) (h1 : -32768 ≤ i) (h2 : i ≤ 32767) :
    toSigned16 ((i % 65536).toNat % 256 + 256 * ((i % 65536).toNat / 256)) = i := by
  rw [toSigned16]
  split <;> omega

/-- C3 (amended): for a sample s in [-1, 1], decoding the encoding of the
single-sample buffer [s] yields exactly one value, encodeSample(s) / 32768,
and that value lies within 2/32768 of s (the bound 1/32768 fails; see the
counterexample). -/
theorem decode_encode_single (s : ℚ) (h1 : -1 ≤ s) (h2 : s ≤ 1) :
    pcmToAudioBuffer (float32ToPCMBytes [s]) = [((encodeSample s : ℤ) : ℚ) / 32768] ∧
      |((encodeSample s : ℤ) : ℚ) / 32768 - s| ≤ 2 / 32768 := by
  have hb : -32768 ≤ encodeSample s ∧ encodeSample s ≤ 32767 := by
    rw [encodeSample_eq_spec]
    exact encodeSampleSpec_bounds s
  constructor
  · simp only [float32ToPCMBytes, int16LEBytes, List.cons_append, List.nil_append,
      pcmToAudioBuffer]
    rw [int16LEBytes_decode _ hb.1 hb.2]
  · have hc : clampSample s = s := clampSample_eq_self s h1 h2
    rcases lt_or_le s 0 with hneg | hpos
    · have he : encodeSample s = ⌈s * 32768⌉ := by
        rw [encodeSample_eq_spec, encodeSampleSpec, hc, if_pos hneg,
          ratTrunc_eq_ceil _ (by nlinarith)]
      rw [he, abs_le]
      have hl := Int.le_ceil (s * 32768)
      have hu := Int.ceil_lt_add_one (s * 32768)
      constructor <;> linarith
    · have he : encodeSample s = ⌊s * 32767⌋ := by
        rw [encodeSample_eq_spec, encodeSampleSpec, hc, if_neg (not_lt.2 hpos),
          ratTrunc_eq_floor _ (by nlinarith)]
      rw [he, abs_le]
      have hl := Int.floor_le (s * 32767)
      have hu := Int.lt_floor_add_one (s * 32767)
      constructor <;> linarith

/-- Witness for C3 (amended) at the sample 0. -/
theorem decode_encode_single_witness :
    ((-1 : ℚ) ≤ 0 ∧ (0 : ℚ) ≤ 1) ∧
      (pcmToAudioBuffer (float32ToPCMBytes [0]) = [((encodeSample 0 : ℤ) : ℚ) / 32768] ∧
        |((encodeSample 0 : ℤ) : ℚ) / 32768 - 0| ≤ 2 / 32768) :=
  ⟨⟨neg_nonpos.mpr zero_le_one, zero_le_one⟩,
    decode_encode_single 0 (neg_nonpos.mpr zero_le_one) zero_le_one⟩

/-- Counterexample to C3 as stated: at s = 65535/65536 the decoded value is
32766/32768 = 65532/65536, which differs from s by 3/65536, more than
1/32768 = 2/65536. -/
theorem decode_encode_counterexample :
    pcmToAudioBuffer (float32ToPCMBytes [(65535 : ℚ) / 65536]) = [32766 / 32768] ∧
      ¬ (|(32766 : ℚ) / 32768 - 65535 / 65536| ≤ 1 / 32768) := by
  have hc : clampSample ((65535 : ℚ) / 65536) = 65535 / 65536 :=
    clampSample_eq_self _ (by norm_num) (by norm_num)
  have hf : ratTrunc ((65535 : ℚ) / 65536 * 32767) = 32766 := by
    rw [ratTrunc_eq_floor _ (by norm_num), Int.floor_eq_iff]
    norm_num
  have he : encodeSample ((65535 : ℚ) / 65536) = 32766 := by
    rw [encodeSample, hc, if_neg (by norm_num), jsToInt16, hf]
    decide
  constructor
  · simp only [float32ToPCMBytes, List.cons_append, List.nil_append, he, int16LEBytes,
      pcmToAudioBuffer]
    rw [int16LEBytes_decode 32766 (by decide) (by decide)]
    norm_num
  · intro h
    rw [abs_le] at h
    have := h.1
    norm_num at this

/-- Decoding inverts encoding on every six-bit value. -/
theorem decB64_encB64 : ∀ v : Nat, v < 64 → decB64 (encB64 v) = v := by decide

/-- No six-bit value encodes to the padding character. -/
theorem encB64_ne_61 : ∀ v : Nat, v < 64 → encB64 v ≠ 61 := by decide

/-- The base64 round trip is the identity on byte lists. -/
theorem atob_btoa : ∀ b : List Nat, (∀ x ∈ b, x < 256) → atob (btoa b) = b
  | [], _ => rfl
  | [a], h => by
    have ha : a < 256 := h a (by simp)
    have e1 := decB64_encB64 (a / 4) (by omega)
    have e2 := decB64_encB64 (a % 4 * 16) (by omega)
    simp [btoa, atob, e1, e2]
    omega
  | [a, b], h => by
    have ha : a < 256 := h a (by simp)
    have hb : b < 256 := h b (by simp)
    have e1 := decB64_encB64 (a / 4) (by omega)
    have e2 := decB64_encB64 (a % 4 * 16 + b / 16) (by omega)
    have e3 := decB64_encB64 (b % 16 * 4) (by omega)
    have n3 := encB64_ne_61 (b % 16 * 4) (by omega)
    simp [btoa, atob, e1, e2, e3, n3]
    omega
  | a :: b :: c :: rest, h => by
    have ha : a < 256 := h a (by simp)
    have hb : b < 256 := h b (by simp)
    have hc : c < 256 := h c (by simp)
    have e1 := decB64_encB64 (a / 4) (by omega)
    have e2 := decB64_encB64 (a % 4 * 16 + b / 16) (by omega)
    have e3 := decB64_encB64 (b % 16 * 4 + c / 64) (by omega)
    have e4 := decB64_encB64 (c % 64) (by omega)
    have n3 := encB64_ne_61 (b % 16 * 4 + c / 64) (by omega)
    have n4 := encB64_ne_61 (c % 64) (by omega)
    have ih := atob_btoa rest (fun x hx => h x (by simp [hx]))
    simp [btoa, atob, e1, e2, e3, e4, n3, n4, ih]
    omega

/-- C10: decoding the base64 encoding of any byte array recovers it exactly, so
the base64 framing applied to every outbound and inbound PCM chunk is
lossless. -/
theorem base64_roundtrip (b : List Nat) (h : ∀ x ∈ b, x < 256) :
    base64ToUint8Array (uint8ArrayToBase64 b) = b :=
  atob_btoa b h

/-- Witness for C10 at a five-byte buffer exercising all three tail shapes. -/
theorem base64_roundtrip_witness :
    (∀ x ∈ [0, 255, 61, 62, 7], x < 256) ∧
      base64ToUint8Array (uint8ArrayToBase64 [0, 255, 61, 62, 7]) = [0, 255, 61, 62, 7] :=
  ⟨by decide, base64_roundtrip [0, 255, 61, 62, 7] (by decide)⟩
